import Mathlib

/-!
Verification of the data-transformation core of the `ircc-processing-times`
dashboard (DataService / ChartService / SimpleChartService) against its
natural-language specification.

The JavaScript source is shallowly embedded:
  * JSON values are the inductive `JSON`; JavaScript objects are ordered
    association lists (JS string-keyed objects iterate in insertion order).
  * JavaScript numbers are embedded as exact rationals `ℚ`; the one place
    where a non-finite double can arise (division by a zero average in
    `calculateTrend`) is modelled explicitly by `JSNum`, whose `posInf`,
    `negInf` and `nan` constructors mirror IEEE-754 division by zero.
  * Dates are embedded at day granularity as integers counting days from
    1970-01-01 (the code only ever manipulates whole days and reads the
    calendar fields of dates; time zones and DST are idealised away, the
    spec itself demands UTC-like determinism).
  * `fetch` is an oracle `String → Option α`: `none` is a failed fetch or
    malformed JSON, `some` a parsed document.
-/

/-- Embedded JSON values.  Arrays and objects carry their elements in
document order. -/
inductive JSON where
  | str (s : String)
  | num (q : ℚ)
  | jbool (b : Bool)
  | null
  | arr (xs : List JSON)
  | obj (fields : List (String × JSON))

/-- Property lookup on a JavaScript object: `o[key]`, `none` meaning
`undefined`.  First binding wins, as JS objects have unique keys. -/
def lookupKey {α : Type} : List (String × α) → String → Option α
  | [], _ => none
  | (k, v) :: rest, key => if k = key then some v else lookupKey rest key

/-- JavaScript truthiness of an embedded JSON value (`if (v)`).
`NaN` does not occur among embedded JSON numbers, so a number is falsy
exactly when it is zero. -/
def jsTruthy : JSON → Bool
  | .null => false
  | .jbool b => b
  | .num q => q != 0
  | .str s => s ≠ ""
  | .arr _ => true
  | .obj _ => true

/-! Part: Time-Value Extractor (`extractProcessingTime`)

Embeds `ChartService.extractProcessingTime` (src/unnamed/part_001 lines
41-67); `SimpleChartService.extractProcessingTime` (src/simpleChart.js
lines 16-39) is verbatim the same code, so the one definition embeds both.
-/

/-- The maximal leading run of decimal digits of a character list, together
with the remainder (the greedy `\d+` of the regex). -/
def takeDigits : List Char → List Char × List Char
  | [] => ([], [])
  | c :: cs => if c.isDigit then
      let p := takeDigits cs
      (c :: p.1, p.2)
    else ([], c :: cs)

/-- Value of a list of decimal digit characters, most significant first
(the semantics of `parseFloat` on the digits matched by the regex). -/
def digitsToNat (ds : List Char) : ℕ := ds.foldl (fun n c => n * 10 + (c.toNat - 48)) 0

/-- Rational value of a decimal literal with integer part `ip` and
fractional part `fp`. -/
def parseDecimal (ip fp : List Char) : ℚ :=
  (digitsToNat ip : ℚ) + (digitsToNat fp : ℚ) / ((10 : ℚ) ^ fp.length)

/-- First match of the regex `(\d+(?:\.\d+)?)` over a character list,
converted by `parseFloat`: the first maximal digit run, optionally
followed by a dot and a further digit run.  `none` when the list has no
digit at all. -/
def scanFirstNumber : List Char → Option ℚ
  | [] => none
  | c :: cs =>
    if c.isDigit then
      let p := takeDigits cs
      match p.2 with
      | '.' :: d :: rest2 =>
        if d.isDigit then
          let f := takeDigits rest2
          some (parseDecimal (c :: p.1) (d :: f.1))
        else some ((digitsToNat (c :: p.1) : ℚ))
      | _ => some ((digitsToNat (c :: p.1) : ℚ))
    else scanFirstNumber cs

/-- The fixed priority list of time-like keys probed on object input
(`const timeKeys = ['months', 'days', 'weeks', 'time', 'duration']`). -/
def timeKeys : List String := ["months", "days", "weeks", "time", "duration"]

/-- Probe the keys of `keys` in order on `fields`; return the value of the
first present key (`data[key] !== undefined`). -/
def probeKeys (fields : List (String × JSON)) : List String → Option JSON
  | [] => none
  | k :: ks =>
    match lookupKey fields k with
    | some v => some v
    | none => probeKeys fields ks

/-- Probe of the five time-like keys, in source order. -/
def probeTimeKeys (fields : List (String × JSON)) : Option JSON :=
  probeKeys fields timeKeys

theorem sizeOf_lookupKey {fields : List (String × JSON)} {key : String} {v : JSON}
    (h : lookupKey fields key = some v) : sizeOf v < sizeOf fields := by
  induction fields with
  | nil => simp [lookupKey] at h
  | cons p rest ih =>
    obtain ⟨k, w⟩ := p
    simp only [lookupKey] at h
    split at h
    · cases h; simp; omega
    · have := ih h; simp; omega

theorem sizeOf_probeKeys {fields : List (String × JSON)} {ks : List String} {v : JSON}
    (h : probeKeys fields ks = some v) : sizeOf v < sizeOf fields := by
  induction ks with
  | nil => simp [probeKeys] at h
  | cons k ks ih =>
    simp only [probeKeys] at h
    split at h
    · cases h; exact sizeOf_lookupKey (by assumption)
    · exact ih h

theorem sizeOf_probeTimeKeys {fields : List (String × JSON)} {v : JSON}
    (h : probeTimeKeys fields = some v) : sizeOf v < sizeOf (JSON.obj fields) := by
  have := sizeOf_probeKeys h
  simp; omega

/-- Embedding of `extractProcessingTime(data)`: string input is scanned by
the regex and parsed; numeric input is returned as is; object input probes
the five time-like keys in order and recurses into the first present
value; arrays, booleans and null fall through to `null`.  (In JS an array
reaches the object branch, but a JSON array never carries the probed
string keys, so returning `none` directly is extensionally the same.)
Total by construction: the JS function never throws. -/
def extractProcessingTime (data : JSON) : Option ℚ :=
  match data with
  | .str s => scanFirstNumber s.data
  | .num q => some q
  | .jbool _ => none
  | .null => none
  | .arr _ => none
  | .obj fields =>
    match h : probeTimeKeys fields with
    | some v => extractProcessingTime v
    | none => none
termination_by sizeOf data
decreasing_by exact sizeOf_probeTimeKeys h

theorem extract_obj_probe {fields : List (String × JSON)} {v : JSON}
    (h : probeTimeKeys fields = some v) :
    extractProcessingTime (JSON.obj fields) = extractProcessingTime v := by
  conv_lhs => unfold extractProcessingTime
  split
  · rename_i w hw
    rw [h] at hw
    cases hw
    rfl
  · rename_i hw
    rw [h] at hw
    cases hw

theorem extract_obj_none {fields : List (String × JSON)}
    (h : probeTimeKeys fields = none) :
    extractProcessingTime (JSON.obj fields) = none := by
  conv_lhs => unfold extractProcessingTime
  split
  · rename_i w hw
    rw [h] at hw
    cases hw
  · rfl

theorem scanFirstNumber_isSome_of_digit {c : Char} {cs : List Char}
    (hc : c.isDigit = true) : (scanFirstNumber (c :: cs)).isSome = true := by
  simp only [scanFirstNumber]
  rw [if_pos hc]
  split
  · split <;> simp
  · simp

/-- Over a string with no digit the scan yields `none`, and conversely. -/
theorem scanFirstNumber_eq_none_iff (cs : List Char) :
    scanFirstNumber cs = none ↔ ∀ c ∈ cs, c.isDigit = false := by
  induction cs with
  | nil => simp [scanFirstNumber]
  | cons c cs ih =>
    by_cases hc : c.isDigit = true
    · constructor
      · intro h
        have h2 := @scanFirstNumber_isSome_of_digit c cs hc
        rw [h] at h2
        cases h2
      · intro h
        have h2 := h c (List.mem_cons_self c cs)
        rw [hc] at h2
        exact Bool.noConfusion h2
    · have hstep : scanFirstNumber (c :: cs) = scanFirstNumber cs := by
        simp only [scanFirstNumber]
        rw [if_neg hc]
      rw [hstep, ih]
      have hc2 : c.isDigit = false := by simpa using hc
      constructor
      · intro h d hd
        rcases List.mem_cons.mp hd with rfl | hd
        · exact hc2
        · exact h d hd
      · intro h d hd
        exact h d (List.mem_cons_of_mem _ hd)

/-- Claim C4: `extractProcessingTime` is total over arbitrary JSON and never
throws (it is a total Lean function over all of `JSON`); every string input
yields the first decimal-number substring, `none` exactly when no digit is
present; numeric input is returned as is; object input probes `months`,
`days`, `weeks`, `time`, `duration` in exactly that order and recurses into
the first present value, `none` when none is present; arrays and all other
inputs yield `none`; and the four concrete examples of the spec hold. -/
theorem claim_C4 :
    (∀ q : ℚ, extractProcessingTime (JSON.num q) = some q) ∧
    (∀ xs : List JSON, extractProcessingTime (JSON.arr xs) = none) ∧
    extractProcessingTime JSON.null = none ∧
    (∀ b : Bool, extractProcessingTime (JSON.jbool b) = none) ∧
    (∀ s : String,
        extractProcessingTime (JSON.str s) = none ↔ ∀ c ∈ s.data, c.isDigit = false) ∧
    (∀ fields v, lookupKey fields "months" = some v →
        extractProcessingTime (JSON.obj fields) = extractProcessingTime v) ∧
    (∀ fields v, lookupKey fields "months" = none →
        lookupKey fields "days" = some v →
        extractProcessingTime (JSON.obj fields) = extractProcessingTime v) ∧
    (∀ fields v, lookupKey fields "months" = none →
        lookupKey fields "days" = none →
        lookupKey fields "weeks" = some v →
        extractProcessingTime (JSON.obj fields) = extractProcessingTime v) ∧
    (∀ fields v, lookupKey fields "months" = none →
        lookupKey fields "days" = none →
        lookupKey fields "weeks" = none →
        lookupKey fields "time" = some v →
        extractProcessingTime (JSON.obj fields) = extractProcessingTime v) ∧
    (∀ fields v, lookupKey fields "months" = none →
        lookupKey fields "days" = none →
        lookupKey fields "weeks" = none →
        lookupKey fields "time" = none →
        lookupKey fields "duration" = some v →
        extractProcessingTime (JSON.obj fields) = extractProcessingTime v) ∧
    (∀ fields, lookupKey fields "months" = none →
        lookupKey fields "days" = none →
        lookupKey fields "weeks" = none →
        lookupKey fields "time" = none →
        lookupKey fields "duration" = none →
        extractProcessingTime (JSON.obj fields) = none) ∧
    extractProcessingTime (JSON.str "45 days") = some 45 ∧
    extractProcessingTime (JSON.obj [("months", JSON.num 3)]) = some 3 ∧
    extractProcessingTime (JSON.obj [("unrelated", JSON.num 1)]) = none ∧
    extractProcessingTime (JSON.arr [JSON.num 1, JSON.num 2, JSON.num 3]) = none := by
  refine ⟨?_, ?_, ?_, ?_, ?_, ?_, ?_, ?_, ?_, ?_, ?_, ?_, ?_, ?_, ?_⟩
  · intro q; simp [extractProcessingTime]
  · intro xs; simp [extractProcessingTime]
  · simp [extractProcessingTime]
  · intro b; simp [extractProcessingTime]
  · intro s
    have : extractProcessingTime (JSON.str s) = scanFirstNumber s.data := by
      simp [extractProcessingTime]
    rw [this]
    exact scanFirstNumber_eq_none_iff s.data
  · intro fields v h1
    exact extract_obj_probe (by simp [probeTimeKeys, probeKeys, timeKeys, h1])
  · intro fields v h1 h2
    exact extract_obj_probe (by simp [probeTimeKeys, probeKeys, timeKeys, h1, h2])
  · intro fields v h1 h2 h3
    exact extract_obj_probe (by simp [probeTimeKeys, probeKeys, timeKeys, h1, h2, h3])
  · intro fields v h1 h2 h3 h4
    exact extract_obj_probe (by simp [probeTimeKeys, probeKeys, timeKeys, h1, h2, h3, h4])
  · intro fields v h1 h2 h3 h4 h5
    exact extract_obj_probe (by simp [probeTimeKeys, probeKeys, timeKeys, h1, h2, h3, h4, h5])
  · intro fields h1 h2 h3 h4 h5
    exact extract_obj_none (by simp [probeTimeKeys, probeKeys, timeKeys, h1, h2, h3, h4, h5])
  · simp [extractProcessingTime, scanFirstNumber, takeDigits, digitsToNat]
  · simp [extractProcessingTime, probeTimeKeys, probeKeys, timeKeys, lookupKey]
  · simp [extractProcessingTime, probeTimeKeys, probeKeys, timeKeys, lookupKey]
  · simp [extractProcessingTime]

/-- Witness for claim C4 at a concrete object probing the second key. -/
theorem claim_C4_witness :
    lookupKey [("days", JSON.num 2)] "months" = none ∧
    lookupKey [("days", JSON.num 2)] "days" = some (JSON.num 2) ∧
    extractProcessingTime (JSON.obj [("days", JSON.num 2)]) =
      extractProcessingTime (JSON.num 2) :=
  ⟨rfl, rfl, claim_C4.2.2.2.2.2.2.1 [("days", JSON.num 2)] (JSON.num 2) rfl rfl⟩

/-! Part: Trend summary (`ChartService.calculateTrend`)

Embeds `calculateTrend` (src/unnamed/part_001 lines 280-298).  The change
value is a `JSNum`: the only place a non-finite double can arise is the
division by `olderAvg`, which `jsDiv` models with the IEEE-754 rules for
division by zero. -/

/-- One chart data point, as pushed by `prepareChartData`: `x` the date (a
day number), `y` the extracted processing time, plus the week label and
the raw source value. -/
structure ChartPoint where
  x : ℤ
  y : ℚ
  week : String
  rawData : JSON

inductive TrendKind where
  | insufficientData
  | increasing
  | decreasing
  | stable
  deriving DecidableEq

/-- A JavaScript number that is either finite (an exact rational) or one of
the non-finite doubles. -/
inductive JSNum where
  | fin (q : ℚ)
  | posInf
  | negInf
  | nan
  deriving DecidableEq

structure TrendResult where
  trend : TrendKind
  change : JSNum
  deriving DecidableEq

/-- IEEE-754 division of finite doubles: division by zero gives a signed
infinity, `0 / 0` gives NaN.  (Signed zeros do not arise here: the
numerator and denominator are exact rationals.) -/
def jsDiv (a b : ℚ) : JSNum :=
  if b = 0 then
    if 0 < a then JSNum.posInf else if a < 0 then JSNum.negInf else JSNum.nan
  else JSNum.fin (a / b)

/-- Multiplication of a JS number by the positive literal `100`. -/
def jsMul100 (a : JSNum) : JSNum :=
  match a with
  | JSNum.fin q => JSNum.fin (q * 100)
  | x => x

/-- The comparison `change > c` on a JS number (false for NaN). -/
def jsGt (a : JSNum) (c : ℚ) : Bool :=
  match a with
  | JSNum.fin q => decide (c < q)
  | JSNum.posInf => true
  | JSNum.negInf => false
  | JSNum.nan => false

/-- The comparison `change < c` on a JS number (false for NaN). -/
def jsLt (a : JSNum) (c : ℚ) : Bool :=
  match a with
  | JSNum.fin q => decide (q < c)
  | JSNum.posInf => false
  | JSNum.negInf => true
  | JSNum.nan => false

/-- Rounding to two decimals, `Math.round(x * 100) / 100`.  `Math.round`
rounds half toward positive infinity, i.e. it is `⌊x + 1/2⌋`; infinities
and NaN pass through. -/
def jsRound2 (a : JSNum) : JSNum :=
  match a with
  | JSNum.fin q => JSNum.fin ((⌊q * 100 + 1/2⌋ : ℤ) / (100 : ℚ))
  | x => x

/-- The window `data.slice(-4)`: the last four points (all of them when
fewer than four exist). -/
def recentWindow (data : List ChartPoint) : List ChartPoint :=
  data.drop (data.length - 4)

/-- The window `data.slice(-8, -4)`: points five to eight from the end
(possibly fewer, possibly empty). -/
def olderWindow (data : List ChartPoint) : List ChartPoint :=
  (data.take (data.length - 4)).drop (data.length - 8)

/-- Mean of the `y` values of a window (`reduce` of `item.y` over length). -/
def avgY (l : List ChartPoint) : ℚ :=
  (l.map (fun p => p.y)).sum / (l.length : ℚ)

/-- The local `change` of `calculateTrend`:
`((recentAvg - olderAvg) / olderAvg) * 100` in JS double arithmetic. -/
def changeOf (data : List ChartPoint) : JSNum :=
  jsMul100 (jsDiv (avgY (recentWindow data) - avgY (olderWindow data))
    (avgY (olderWindow data)))

/-- Classification of the (unrounded) change value, as in the source:
`increasing` when `change > 5`, `decreasing` when `change < -5`, else
`stable`. -/
def trendClass (change : JSNum) : TrendKind :=
  if jsGt change 5 then TrendKind.increasing
  else if jsLt change (-5) then TrendKind.decreasing
  else TrendKind.stable

/-- Embedding of `calculateTrend(data)`. -/
def calculateTrend (data : List ChartPoint) : TrendResult :=
  if data.length < 2 then ⟨TrendKind.insufficientData, JSNum.fin 0⟩
  else if (recentWindow data).length = 0 ∨ (olderWindow data).length = 0 then
    ⟨TrendKind.insufficientData, JSNum.fin 0⟩
  else ⟨trendClass (changeOf data), jsRound2 (changeOf data)⟩

theorem trendClass_ne_insufficient (c : JSNum) :
    trendClass c ≠ TrendKind.insufficientData := by
  unfold trendClass
  split_ifs <;> simp

/-- Concrete points used by the trend counterexamples and witnesses. -/
def mkPt (x : ℤ) (y : ℚ) : ChartPoint := ⟨x, y, "", JSON.null⟩

/-- A five-point series: both slices are nonempty (sizes 4 and 1), so the
source computes a trend although the older window has fewer than 4 points. -/
def c1Series : List ChartPoint :=
  [mkPt 0 10, mkPt 1 10, mkPt 2 10, mkPt 3 10, mkPt 4 20]

/-- Counterexample to claim C1 as stated: this series of 5 points (at most
7, older window of only 1 point) does not yield insufficient-data; the
source computes change `(12.5 - 10) / 10 * 100 = 25` and reports
increasing. -/
theorem claim_C1_counterexample :
    c1Series.length = 5 ∧ (olderWindow c1Series).length = 1 ∧
    calculateTrend c1Series = ⟨TrendKind.increasing, JSNum.fin 25⟩ ∧
    calculateTrend c1Series ≠ ⟨TrendKind.insufficientData, JSNum.fin 0⟩ := by
  have h3 : calculateTrend c1Series = ⟨TrendKind.increasing, JSNum.fin 25⟩ := by
    norm_num [calculateTrend, changeOf, trendClass, recentWindow, olderWindow,
      avgY, jsDiv, jsMul100, jsGt, jsLt, jsRound2, c1Series, mkPt]
  refine ⟨by decide, by decide, h3, ?_⟩
  rw [h3]
  simp

/-- Claim C1 as amended: `calculateTrend` returns
`{trend: insufficient-data, change: 0}` exactly when one of the two slices
is empty, i.e. exactly when the series has at most 4 points (in
particular for a series of exactly 3 points); for lengths 5 to 7 the older
window merely has fewer than 4 points and a trend is still computed. -/
theorem claim_C1_amended (data : List ChartPoint) :
    ((olderWindow data).length = 0 ↔ data.length ≤ 4) ∧
    (calculateTrend data = ⟨TrendKind.insufficientData, JSNum.fin 0⟩ ↔
      data.length ≤ 4) := by
  have h1 : (olderWindow data).length = data.length - 4 - (data.length - 8) := by
    simp [olderWindow]
  constructor
  · rw [h1]
    omega
  · unfold calculateTrend
    split_ifs with hlt hwin
    · constructor
      · intro _; omega
      · intro _; rfl
    · constructor
      · intro _
        rcases hwin with hwin | hwin
        · simp [recentWindow] at hwin; omega
        · omega
      · intro _; rfl
    · constructor
      · intro he
        exact absurd (congrArg TrendResult.trend he) (trendClass_ne_insufficient _)
      · intro hle
        exact absurd (by omega : (olderWindow data).length = 0) (by tauto)

/-- An eight-point series whose older four values are all zero. -/
def c2Series : List ChartPoint :=
  [mkPt 0 0, mkPt 1 0, mkPt 2 0, mkPt 3 0,
   mkPt 4 10, mkPt 5 10, mkPt 6 10, mkPt 7 10]

/-- Claim C2 (code bug): on an 8-point series whose older window averages
zero, the source divides by zero; per IEEE-754 the change is `+Infinity`
(`10 / 0`), which passes the `change > 5` test, so `calculateTrend`
returns `{trend: 'increasing', change: Infinity}` — a non-finite change,
with no explicit handling of the zero older-average. -/
theorem claim_C2_code_bug :
    c2Series.length = 8 ∧ avgY (olderWindow c2Series) = 0 ∧
    calculateTrend c2Series = ⟨TrendKind.increasing, JSNum.posInf⟩ := by
  refine ⟨by decide, ?_, ?_⟩
  · norm_num [olderWindow, avgY, c2Series, mkPt]
  · norm_num [calculateTrend, changeOf, trendClass, recentWindow, olderWindow,
      avgY, jsDiv, jsMul100, jsGt, jsLt, jsRound2, c2Series, mkPt]

/-- Claim C5: with at least 8 points (so both windows have exactly 4
points) and a nonzero older average, `calculateTrend` reports the percent
change `(recentAvg - olderAvg) / olderAvg * 100` rounded to two decimals,
classified as increasing / decreasing / stable by comparing the change
with 5 and -5. -/
theorem claim_C5 (data : List ChartPoint) (h8 : 8 ≤ data.length)
    (hz : avgY (olderWindow data) ≠ 0) :
    (recentWindow data).length = 4 ∧ (olderWindow data).length = 4 ∧
    calculateTrend data =
      ⟨(if 5 < (avgY (recentWindow data) - avgY (olderWindow data)) /
            avgY (olderWindow data) * 100 then TrendKind.increasing
        else if (avgY (recentWindow data) - avgY (olderWindow data)) /
            avgY (olderWindow data) * 100 < -5 then TrendKind.decreasing
        else TrendKind.stable),
       JSNum.fin ((⌊(avgY (recentWindow data) - avgY (olderWindow data)) /
           avgY (olderWindow data) * 100 * 100 + 1/2⌋ : ℤ) / (100 : ℚ))⟩ := by
  have hr : (recentWindow data).length = 4 := by
    simp [recentWindow]
    omega
  have ho : (olderWindow data).length = 4 := by
    simp [olderWindow]
    omega
  refine ⟨hr, ho, ?_⟩
  have hch : changeOf data =
      JSNum.fin ((avgY (recentWindow data) - avgY (olderWindow data)) /
        avgY (olderWindow data) * 100) := by
    simp [changeOf, jsDiv, if_neg hz, jsMul100]
  unfold calculateTrend
  rw [if_neg (by omega), if_neg (by rw [hr, ho]; simp), hch]
  simp [trendClass, jsGt, jsLt, jsRound2]

/-- Eight points whose last four average 20 and first four average 10. -/
def c5Series : List ChartPoint :=
  [mkPt 0 10, mkPt 1 10, mkPt 2 10, mkPt 3 10,
   mkPt 4 20, mkPt 5 20, mkPt 6 20, mkPt 7 20]

/-- Witness for claim C5: the concrete 8-point example of the spec yields
`{trend: 'increasing', change: 100.0}`. -/
theorem claim_C5_witness :
    8 ≤ c5Series.length ∧ avgY (olderWindow c5Series) ≠ 0 ∧
    calculateTrend c5Series = ⟨TrendKind.increasing, JSNum.fin 100⟩ := by
  have hz : avgY (olderWindow c5Series) ≠ 0 := by
    norm_num [olderWindow, avgY, c5Series, mkPt]
  refine ⟨by decide, hz, ?_⟩
  have h := claim_C5 c5Series (by decide) hz
  rw [h.2.2]
  norm_num [recentWindow, olderWindow, avgY, c5Series, mkPt]

/-! Part: Week Identifier and the weekly-file fallback generator

Embeds `DataService.getWeekNumber` (src/unnamed/part_002 lines 88-94) and
`DataService.generateWeeklyFileList` (lines 70-83).  Dates are day numbers
(days since 1970-01-01); the `i * 7 * 24h` millisecond subtraction of the
source shifts the calendar day by exactly `7 * i`. -/

/-- Day number of January 1st of year `y` in the proleptic Gregorian
calendar (what `Date.UTC(y, 0, 1)` denotes, in days).  Day 0 is
1970-01-01; the `/` on `ℤ` is floor division, as required for years
before 1970. -/
def jan1 (y : ℤ) : ℤ :=
  365 * (y - 1) + (y - 1) / 4 - (y - 1) / 100 + (y - 1) / 400 - 719162

/-- Calendar year containing day number `d` (the `getFullYear` of such a
date): the unique `y` with `jan1 y ≤ d < jan1 (y + 1)`, computed from a
linear estimate (the mean Gregorian year is 146097/400 days) corrected by
at most one year in each direction. -/
def yearOf (d : ℤ) : ℤ :=
  if d < jan1 (400 * d / 146097 + 1970) then 400 * d / 146097 + 1969
  else if d < jan1 (400 * d / 146097 + 1971) then 400 * d / 146097 + 1970
  else 400 * d / 146097 + 1971

theorem jan1_1970 : jan1 1970 = 0 := by decide

theorem jan1_ub (y : ℤ) : 400 * jan1 y ≤ 146097 * (y - 1970) + 593 := by
  unfold jan1
  omega

theorem jan1_lb (y : ℤ) : 146097 * (y - 1970) - 607 ≤ 400 * jan1 y := by
  unfold jan1
  omega

/-- The estimate-and-correct year computation is correct: day `d` lies
between January 1st of `yearOf d` and January 1st of the following year. -/
theorem yearOf_correct (d : ℤ) : jan1 (yearOf d) ≤ d ∧ d < jan1 (yearOf d + 1) := by
  have hB := jan1_ub (400 * d / 146097 + 1969)
  have hA := jan1_lb (400 * d / 146097 + 1972)
  unfold yearOf
  split_ifs with hc1 hc2
  · constructor
    · omega
    · have he : (400 * d / 146097 + 1969 + 1 : ℤ) = 400 * d / 146097 + 1970 := by ring
      rw [he]
      exact hc1
  · exact ⟨by omega, by
      have he : (400 * d / 146097 + 1970 + 1 : ℤ) = 400 * d / 146097 + 1971 := by ring
      rw [he]
      exact hc2⟩
  · constructor
    · omega
    · have he : (400 * d / 146097 + 1971 + 1 : ℤ) = 400 * d / 146097 + 1972 := by ring
      rw [he]
      omega

theorem jan1_mono {y z : ℤ} (h : y ≤ z) : jan1 y ≤ jan1 z := by
  unfold jan1
  omega

/-- A Gregorian year has at most 366 days. -/
theorem jan1_succ_sub_le (y : ℤ) : jan1 (y + 1) - jan1 y ≤ 366 := by
  unfold jan1
  omega

theorem yearOf_mono {d e : ℤ} (h : d ≤ e) : yearOf d ≤ yearOf e := by
  by_contra hc
  push_neg at hc
  have h1 := (yearOf_correct d).1
  have h2 := (yearOf_correct e).2
  have h3 : jan1 (yearOf e + 1) ≤ jan1 (yearOf d) := jan1_mono (by omega)
  omega

/-- Day-of-week of day number `d` per `getUTCDay`: 0 is Sunday; day 0
(1970-01-01) was a Thursday. -/
def jsDayOfWeek (d : ℤ) : ℤ := (d + 4) % 7

/-- The `dayNum = d.getUTCDay() || 7` of the source: ISO day-of-week,
Monday 1 through Sunday 7. -/
def isoDayNum (d : ℤ) : ℤ := if jsDayOfWeek d = 0 then 7 else jsDayOfWeek d

/-- The Thursday of the ISO week containing day `d`
(`d.setUTCDate(d.getUTCDate() + 4 - dayNum)`). -/
def isoThursday (d : ℤ) : ℤ := d + 4 - isoDayNum d

/-- Embedding of `getWeekNumber(date)`: the ceiling (`Math.ceil`) of
`(dayOfYear + 1) / 7` for the ISO Thursday of the date's week; for an
integer `x`, `⌈x / 7⌉ = ⌊(x + 6) / 7⌋`. -/
def getWeekNumber (d : ℤ) : ℤ :=
  (isoThursday d - jan1 (yearOf (isoThursday d)) + 1 + 6) / 7

/-- For every date the computed ISO week number lies in `[1, 53]`. -/
theorem getWeekNumber_bounds (d : ℤ) :
    1 ≤ getWeekNumber d ∧ getWeekNumber d ≤ 53 := by
  have h1 := (yearOf_correct (isoThursday d)).1
  have h2 := (yearOf_correct (isoThursday d)).2
  have h3 := jan1_succ_sub_le (yearOf (isoThursday d))
  unfold getWeekNumber
  omega

/-- Decimal digit characters of `n`, most significant first; the first
argument is recursion fuel (any value above the digit count works). -/
def decDigitsAux : ℕ → ℕ → List Char
  | 0, _ => []
  | fuel + 1, n =>
    if n < 10 then [Char.ofNat (48 + n)]
    else decDigitsAux fuel (n / 10) ++ [Char.ofNat (48 + n % 10)]

/-- Decimal representation of a natural number, as `toString` renders it. -/
def decRepr (n : ℕ) : List Char := decDigitsAux (n + 1) n

/-- Decimal representation of an integer, as the JS template literal
renders a number. -/
def intReprChars (n : ℤ) : List Char :=
  if n < 0 then '-' :: decRepr n.natAbs else decRepr n.toNat

/-- The `week.toString().padStart(2, '0')` of the source. -/
def pad2Chars (n : ℤ) : List Char :=
  if (intReprChars n).length < 2 then '0' :: intReprChars n else intReprChars n

/-- Character content of the generated filename
`{year}-W{week, zero-padded to 2}.json` for the date on day `d`. -/
def weekFileChars (d : ℤ) : List Char :=
  intReprChars (yearOf d) ++ '-' :: 'W' ::
    (pad2Chars (getWeekNumber d) ++ '.' :: 'j' :: 's' :: 'o' :: 'n' :: [])

def weekFileName (d : ℤ) : String := String.mk (weekFileChars d)

/-- Embedding of `generateWeeklyFileList()` for a current date on day
`today`: filenames for `today`, `today - 7`, ..., `today - 51 * 7`,
then reversed to oldest-first. -/
def generateWeeklyFileList (today : ℤ) : List String :=
  ((List.range 52).map (fun (i : ℕ) => weekFileName (today - 7 * (i : ℤ)))).reverse

/-- Decidable matcher for the pattern `^\d{4}-W\d{2}\.json$`. -/
def isWeekFileName (s : String) : Bool :=
  match s.data with
  | [a, b, c, d, '-', 'W', e, f, '.', 'j', 's', 'o', 'n'] =>
    a.isDigit && b.isDigit && c.isDigit && d.isDigit && e.isDigit && f.isDigit
  | _ => false

theorem isDigit_ofNat {k : ℕ} (h : k < 10) : (Char.ofNat (48 + k)).isDigit = true := by
  interval_cases k <;> decide

theorem decDigitsAux_eq1 {fuel n : ℕ} (h : n < 10) (hf : 1 ≤ fuel) :
    decDigitsAux fuel n = [Char.ofNat (48 + n)] := by
  cases fuel with
  | zero => omega
  | succ f => simp [decDigitsAux, if_pos h]

theorem decDigitsAux_eq2 {fuel n : ℕ} (h1 : 10 ≤ n) (h2 : n < 100) (hf : 2 ≤ fuel) :
    decDigitsAux fuel n = [Char.ofNat (48 + n / 10), Char.ofNat (48 + n % 10)] := by
  cases fuel with
  | zero => omega
  | succ f =>
    rw [show decDigitsAux (f + 1) n =
        (if n < 10 then [Char.ofNat (48 + n)]
         else decDigitsAux f (n / 10) ++ [Char.ofNat (48 + n % 10)]) from rfl]
    rw [if_neg (by omega)]
    rw [decDigitsAux_eq1 (by omega) (by omega)]
    simp

theorem decDigitsAux_eq3 {fuel n : ℕ} (h1 : 100 ≤ n) (h2 : n < 1000) (hf : 3 ≤ fuel) :
    decDigitsAux fuel n =
      [Char.ofNat (48 + n / 100), Char.ofNat (48 + n / 10 % 10),
       Char.ofNat (48 + n % 10)] := by
  cases fuel with
  | zero => omega
  | succ f =>
    rw [show decDigitsAux (f + 1) n =
        (if n < 10 then [Char.ofNat (48 + n)]
         else decDigitsAux f (n / 10) ++ [Char.ofNat (48 + n % 10)]) from rfl]
    rw [if_neg (by omega)]
    rw [decDigitsAux_eq2 (by omega) (by omega) (by omega)]
    have e1 : n / 10 / 10 = n / 100 := by omega
    have e2 : n / 10 % 10 = n / 10 % 10 := rfl
    rw [e1]
    simp

theorem decDigitsAux_eq4 {fuel n : ℕ} (h1 : 1000 ≤ n) (h2 : n < 10000) (hf : 4 ≤ fuel) :
    decDigitsAux fuel n =
      [Char.ofNat (48 + n / 1000), Char.ofNat (48 + n / 100 % 10),
       Char.ofNat (48 + n / 10 % 10), Char.ofNat (48 + n % 10)] := by
  cases fuel with
  | zero => omega
  | succ f =>
    rw [show decDigitsAux (f + 1) n =
        (if n < 10 then [Char.ofNat (48 + n)]
         else decDigitsAux f (n / 10) ++ [Char.ofNat (48 + n % 10)]) from rfl]
    rw [if_neg (by omega)]
    rw [decDigitsAux_eq3 (by omega) (by omega) (by omega)]
    have e1 : n / 10 / 100 = n / 1000 := by omega
    have e2 : n / 10 / 10 % 10 = n / 100 % 10 := by omega
    rw [e1, e2]
    simp

/-- A generated filename whose year has four digits matches the pattern
`^\d{4}-W\d{2}\.json$`. -/
theorem isWeekFileName_weekFileName {d : ℤ}
    (hy1 : 1000 ≤ yearOf d) (hy2 : yearOf d ≤ 9999) :
    isWeekFileName (weekFileName d) = true := by
  have hw := getWeekNumber_bounds d
  have hyc : intReprChars (yearOf d) =
      [Char.ofNat (48 + (yearOf d).toNat / 1000),
       Char.ofNat (48 + (yearOf d).toNat / 100 % 10),
       Char.ofNat (48 + (yearOf d).toNat / 10 % 10),
       Char.ofNat (48 + (yearOf d).toNat % 10)] := by
    rw [intReprChars, if_neg (by omega)]
    exact decDigitsAux_eq4 (by omega) (by omega) (by omega)
  have hwc : ∃ u v : Char, pad2Chars (getWeekNumber d) = [u, v] ∧
      u.isDigit = true ∧ v.isDigit = true := by
    by_cases hten : getWeekNumber d < 10
    · have hc : intReprChars (getWeekNumber d) =
          [Char.ofNat (48 + (getWeekNumber d).toNat)] := by
        rw [intReprChars, if_neg (by omega)]
        exact decDigitsAux_eq1 (by omega) (by omega)
      refine ⟨'0', Char.ofNat (48 + (getWeekNumber d).toNat), ?_, by decide,
        isDigit_ofNat (by omega)⟩
      rw [pad2Chars, hc]
      simp
    · have hc : intReprChars (getWeekNumber d) =
          [Char.ofNat (48 + (getWeekNumber d).toNat / 10),
           Char.ofNat (48 + (getWeekNumber d).toNat % 10)] := by
        rw [intReprChars, if_neg (by omega)]
        exact decDigitsAux_eq2 (by omega) (by omega) (by omega)
      refine ⟨Char.ofNat (48 + (getWeekNumber d).toNat / 10),
        Char.ofNat (48 + (getWeekNumber d).toNat % 10), ?_,
        isDigit_ofNat (by omega), isDigit_ofNat (by omega)⟩
      rw [pad2Chars, hc]
      simp
  obtain ⟨u, v, huv, hu, hv⟩ := hwc
  have hdata : (weekFileName d).data = weekFileChars d := rfl
  rw [isWeekFileName, hdata, weekFileChars, hyc, huv]
  simp only [List.cons_append, List.nil_append]
  simp [isDigit_ofNat, hu, hv, Nat.div_lt_iff_lt_mul, Nat.mod_lt,
    isDigit_ofNat (show (yearOf d).toNat / 1000 < 10 by omega),
    isDigit_ofNat (show (yearOf d).toNat / 100 % 10 < 10 by omega),
    isDigit_ofNat (show (yearOf d).toNat / 10 % 10 < 10 by omega),
    isDigit_ofNat (show (yearOf d).toNat % 10 < 10 by omega)]

theorem range52_reverse_map {α : Type} (g : ℤ → α) :
    ((List.range 52).map (fun (i : ℕ) => g (i : ℤ))).reverse
      = (List.range 52).map (fun (j : ℕ) => g (51 - (j : ℤ))) := by
  apply List.ext_getElem
  · simp
  · intro i h1 h2
    rw [List.getElem_reverse]
    simp only [List.getElem_map, List.getElem_range]
    congr 1
    have h3 : i < 52 := by simpa using h2
    have h4 : ((List.range 52).map (fun (i : ℕ) => g (i : ℤ))).length = 52 := by simp
    omega

/-- Claim C6: for every current day `today` whose surrounding year numbers
have four digits, `generateWeeklyFileList` returns exactly 52 filenames;
the list equals the filenames of the 52 dates `today - 7 * 51`, ...,
`today - 7`, `today` in that (chronologically ascending, oldest-first)
order, i.e. walking backward in 7-day steps and reversing; and every
returned filename matches `^\d{4}-W\d{2}\.json$`. -/
theorem claim_C6 (today : ℤ)
    (h1 : 1000 ≤ yearOf (today - 357)) (h2 : yearOf today ≤ 9999) :
    (generateWeeklyFileList today).length = 52 ∧
    generateWeeklyFileList today =
      (List.range 52).map (fun (j : ℕ) => weekFileName (today - 7 * (51 - (j : ℤ)))) ∧
    ∀ f ∈ generateWeeklyFileList today, isWeekFileName f = true := by
  refine ⟨by simp [generateWeeklyFileList], ?_, ?_⟩
  · unfold generateWeeklyFileList
    exact range52_reverse_map (fun t => weekFileName (today - 7 * t))
  · intro f hf
    rw [generateWeeklyFileList, List.mem_reverse] at hf
    obtain ⟨i, hi, rfl⟩ := List.mem_map.mp hf
    have hi52 : i < 52 := List.mem_range.mp hi
    have hlo : today - 357 ≤ today - 7 * (i : ℤ) := by omega
    have hhi : today - 7 * (i : ℤ) ≤ today := by omega
    exact isWeekFileName_weekFileName
      (le_trans h1 (yearOf_mono hlo)) (le_trans (yearOf_mono hhi) h2)

/-- Witness for claim C6 at the concrete day 20000 (a day in 2024). -/
theorem claim_C6_witness :
    1000 ≤ yearOf (20000 - 357) ∧ yearOf 20000 ≤ 9999 ∧
    (generateWeeklyFileList 20000).length = 52 :=
  ⟨by decide, by decide, (claim_C6 20000 (by decide) (by decide)).1⟩

/-! Part: Snapshot Loader (`parseWeekFilename`, `loadWeeklyData`)

Embeds `DataService.parseWeekFilename` (src/unnamed/part_002 lines
140-149) and `DataService.loadWeeklyData` (lines 99-135).  A processing
times document maps category keys to blocks, each block mapping keys
(country codes, `lastupdated`, ...) to JSON values. -/

abbrev CountryBlock := List (String × JSON)

abbrev Doc := List (String × CountryBlock)

/-- Match of `\d{4}-W\d{2}\.json` anchored at the head of the character
list, yielding `parseInt` of the two capture groups. -/
def matchWeekAt : List Char → Option (ℤ × ℤ)
  | a :: b :: c :: d :: '-' :: 'W' :: e :: f :: '.' :: 'j' :: 's' :: 'o' :: 'n' :: _ =>
    if a.isDigit && b.isDigit && c.isDigit && d.isDigit && e.isDigit && f.isDigit then
      some ((digitsToNat [a, b, c, d] : ℤ), (digitsToNat [e, f] : ℤ))
    else none
  | _ => none

/-- Leftmost match of the unanchored regex `(\d{4})-W(\d{2})\.json`. -/
def scanWeekPattern : List Char → Option (ℤ × ℤ)
  | [] => none
  | c :: cs =>
    match matchWeekAt (c :: cs) with
    | some r => some r
    | none => scanWeekPattern cs

/-- Embedding of `parseWeekFilename(filename)`: the parsed `(year, week)`
of the first regex match, or `none` for the `{year: null, week: null}`
result. -/
def parseWeekFilename (s : String) : Option (ℤ × ℤ) := scanWeekPattern s.data

/-- A loaded weekly snapshot, as pushed by `loadWeeklyData`. -/
structure Snapshot where
  filename : String
  year : Option ℤ
  week : Option ℤ
  data : Doc
  timestamp : ℤ

/-- Day number denoted by `new Date(y, 0, day)`: JavaScript maps years
0 through 99 to 1900 + y. -/
def jsDateJanDay (y : ℤ) (day : ℤ) : ℤ :=
  jan1 (if 0 ≤ y ∧ y ≤ 99 then y + 1900 else y) + (day - 1)

/-- The derived timestamp `new Date(year, 0, 1 + (week - 1) * 7)`; a null
year or week coerces to 0 in the arithmetic. -/
def snapshotTimestamp (wi : Option (ℤ × ℤ)) : ℤ :=
  match wi with
  | some (y, w) => jsDateJanDay y (1 + (w - 1) * 7)
  | none => jsDateJanDay 0 (1 + (0 - 1) * 7)

/-- The snapshot object pushed for a successfully fetched file. -/
def mkSnapshot (fn : String) (doc : Doc) : Snapshot :=
  { filename := fn
    year := (parseWeekFilename fn).map (fun p => p.1)
    week := (parseWeekFilename fn).map (fun p => p.2)
    data := doc
    timestamp := snapshotTimestamp (parseWeekFilename fn) }

/-- The slice `files.slice(-maxWeeks)`.  In JavaScript `-0` is `0`, so
`slice(-0) = slice(0)` is the whole list — hence the explicit zero case. -/
def recentFiles (files : List String) (maxWeeks : ℕ) : List String :=
  if maxWeeks = 0 then files else files.drop (files.length - maxWeeks)

/-- Index-tagged comparison modelling a stable sort by `key`: order by key,
breaking ties by original position. -/
def lexLe {α : Type} (key : α → ℤ) (p q : ℕ × α) : Prop :=
  key p.2 < key q.2 ∨ (key p.2 = key q.2 ∧ p.1 ≤ q.1)

instance {α : Type} (key : α → ℤ) : DecidableRel (lexLe key) := by
  intro p q
  unfold lexLe
  infer_instance

instance {α : Type} (key : α → ℤ) : IsTotal (ℕ × α) (lexLe key) := ⟨by
  intro p q
  rcases lt_trichotomy (key p.2) (key q.2) with h | h | h
  · exact Or.inl (Or.inl h)
  · rcases Nat.le_total p.1 q.1 with h2 | h2
    · exact Or.inl (Or.inr ⟨h, h2⟩)
    · exact Or.inr (Or.inr ⟨h.symm, h2⟩)
  · exact Or.inr (Or.inl h)⟩

instance {α : Type} (key : α → ℤ) : IsTrans (ℕ × α) (lexLe key) := ⟨by
  intro p q r hpq hqr
  rcases hpq with h1 | ⟨h1, h1b⟩ <;> rcases hqr with h2 | ⟨h2, h2b⟩
  · exact Or.inl (h1.trans h2)
  · exact Or.inl (lt_of_lt_of_le h1 (le_of_eq h2))
  · exact Or.inl (lt_of_le_of_lt (le_of_eq h1) h2)
  · exact Or.inr ⟨h1.trans h2, h1b.trans h2b⟩⟩

/-- Embedding of JavaScript `array.sort((a, b) => key(a) - key(b))`.
`Array.prototype.sort` is stable, and a stable sort is extensionally
unique: it equals sorting the index-tagged list by `(key, index)` and
dropping the indices. -/
def stableSortBy {α : Type} (key : α → ℤ) (l : List α) : List α :=
  (l.enum.insertionSort (lexLe key)).map Prod.snd

theorem stableSortBy_perm {α : Type} (key : α → ℤ) (l : List α) :
    (stableSortBy key l).Perm l := by
  have h := (List.perm_insertionSort (lexLe key) l.enum).map Prod.snd
  rw [List.enum_map_snd] at h
  exact h

theorem stableSortBy_sorted {α : Type} (key : α → ℤ) (l : List α) :
    List.Pairwise (fun a b => key a ≤ key b) (stableSortBy key l) := by
  have hs := List.sorted_insertionSort (lexLe key) l.enum
  refine List.Pairwise.map Prod.snd ?_ hs
  intro p q hpq
  rcases hpq with h | ⟨h, _⟩
  · exact le_of_lt h
  · exact le_of_eq h

/-- Embedding of `loadWeeklyData(maxWeeks)` given the resolved filename
list and the fetch oracle: take `slice(-maxWeeks)` of the files, fetch
each independently — a failed fetch or malformed JSON (`none` from the
oracle) skips only that file — and sort the snapshots ascending by
derived timestamp. -/
def loadWeeklyData (fetchDoc : String → Option Doc) (files : List String)
    (maxWeeks : ℕ) : List Snapshot :=
  stableSortBy (fun s => s.timestamp)
    ((recentFiles files maxWeeks).filterMap
      (fun fn => (fetchDoc fn).map (fun doc => mkSnapshot fn doc)))

/-- A minimal current-times document used by concrete examples. -/
def exDoc : Doc := [("study-permit", [("IN", JSON.str "12 months")])]

/-- Counterexample to claim C7 as stated: with `maxWeeks = 0`, JavaScript
`slice(-0)` is the whole list, so `loadWeeklyData(0)` fetches every file
rather than at most zero of them — here one file is fetched and loaded. -/
theorem claim_C7_counterexample :
    (recentFiles ["2025-W01.json"] 0).length = 1 ∧
    ¬ (recentFiles ["2025-W01.json"] 0).length ≤ 0 ∧
    (loadWeeklyData (fun _ => some exDoc) ["2025-W01.json"] 0).length = 1 := by
  refine ⟨rfl, by decide, rfl⟩

/-- Claim C7 as amended: for every nonzero `maxWeeks`, the loader
considers at most the most recent `maxWeeks` filenames (a suffix of the
resolved list); every snapshot list it returns is a permutation of the
per-file results, so a failed fetch (`none`) skips only its own file and
every successfully fetched file still contributes its snapshot; and the
returned list is sorted ascending by derived timestamp. -/
theorem claim_C7 (fetchDoc : String → Option Doc) (files : List String)
    (maxWeeks : ℕ) (hmw : 1 ≤ maxWeeks) :
    (recentFiles files maxWeeks).length ≤ maxWeeks ∧
    (recentFiles files maxWeeks) <:+ files ∧
    (loadWeeklyData fetchDoc files maxWeeks).Perm
      ((recentFiles files maxWeeks).filterMap
        (fun fn => (fetchDoc fn).map (fun doc => mkSnapshot fn doc))) ∧
    (∀ fn ∈ recentFiles files maxWeeks, ∀ doc, fetchDoc fn = some doc →
      mkSnapshot fn doc ∈ loadWeeklyData fetchDoc files maxWeeks) ∧
    List.Pairwise (fun a b => a.timestamp ≤ b.timestamp)
      (loadWeeklyData fetchDoc files maxWeeks) := by
  have hrf : recentFiles files maxWeeks = files.drop (files.length - maxWeeks) := by
    rw [recentFiles, if_neg (by omega)]
  refine ⟨?_, ?_, ?_, ?_, ?_⟩
  · rw [hrf]
    simp
    omega
  · rw [hrf]
    exact List.drop_suffix _ _
  · exact stableSortBy_perm _ _
  · intro fn hfn doc hdoc
    have hmem : mkSnapshot fn doc ∈
        (recentFiles files maxWeeks).filterMap
          (fun fn => (fetchDoc fn).map (fun doc => mkSnapshot fn doc)) := by
      rw [List.mem_filterMap]
      exact ⟨fn, hfn, by rw [hdoc]; rfl⟩
    exact ((stableSortBy_perm _ _).mem_iff).mpr hmem
  · exact stableSortBy_sorted _ _

/-- Witness for claim C7 on a three-file list with `maxWeeks = 2`. -/
theorem claim_C7_witness :
    (recentFiles ["a.json", "2025-W01.json", "2025-W02.json"] 2).length ≤ 2 :=
  (claim_C7 (fun _ => none) ["a.json", "2025-W01.json", "2025-W02.json"] 2
    (by decide)).1

/-! Part: Historical Aggregator (`getHistoricalData`)

Embeds `DataService.getHistoricalData` (src/unnamed/part_002 lines
173-211): snapshots whose `year` or `week` is falsy (null or 0) are
skipped with a warning; otherwise, for the given country code the filtered
(or all) categories contribute one record per truthy country value. -/

/-- The week label `year + "-W" + week.toString().padStart(2, '0')`. -/
def weekLabel (y w : ℤ) : String :=
  String.mk (intReprChars y ++ '-' :: 'W' :: pad2Chars w)

/-- One flattened historical observation. -/
structure HistRecord where
  date : ℤ
  week : String
  category : String
  country : String
  data : JSON

/-- Records contributed by one snapshot: none when `year` or `week` is
falsy; otherwise one record per (selected) category whose value for
`countryCode` is truthy. -/
def recordsOf (wd : Snapshot) (countryCode : String)
    (category : Option String) : List HistRecord :=
  match wd.year, wd.week with
  | some y, some w =>
    if y = 0 ∨ w = 0 then []
    else
      match category with
      | some cat =>
        match lookupKey wd.data cat with
        | some countries =>
          match lookupKey countries countryCode with
          | some v =>
            if jsTruthy v then
              [⟨wd.timestamp, weekLabel y w, cat, countryCode, v⟩]
            else []
          | none => []
        | none => []
      | none =>
        wd.data.filterMap (fun p =>
          match lookupKey p.2 countryCode with
          | some v =>
            if jsTruthy v then
              some ⟨wd.timestamp, weekLabel y w, p.1, countryCode, v⟩
            else none
          | none => none)
  | _, _ => []

/-- Embedding of `getHistoricalData(countryCode, category)` over the
loaded weekly snapshot list. -/
def getHistoricalData (weeklyData : List Snapshot) (countryCode : String)
    (category : Option String) : List HistRecord :=
  weeklyData.flatMap (fun wd => recordsOf wd countryCode category)

/-- Any record produced by a snapshot certifies non-falsy week info. -/
theorem recordsOf_valid {wd : Snapshot} {countryCode : String}
    {category : Option String} {r : HistRecord}
    (h : r ∈ recordsOf wd countryCode category) :
    ∃ y w : ℤ, wd.year = some y ∧ wd.week = some w ∧ y ≠ 0 ∧ w ≠ 0 := by
  unfold recordsOf at h
  split at h
  · rename_i y w hy hw
    split at h
    · simp at h
    · rename_i hzero
      exact ⟨y, w, hy, hw, by tauto, by tauto⟩
  · simp at h

/-- A snapshot in the loader output originates from a fetched file. -/
theorem mem_loadWeeklyData {fetchDoc : String → Option Doc}
    {files : List String} {maxWeeks : ℕ} {s : Snapshot}
    (h : s ∈ loadWeeklyData fetchDoc files maxWeeks) :
    ∃ fn doc, fn ∈ recentFiles files maxWeeks ∧ fetchDoc fn = some doc ∧
      s = mkSnapshot fn doc := by
  unfold loadWeeklyData at h
  have h2 := ((stableSortBy_perm _ _).mem_iff).mp h
  rw [List.mem_filterMap] at h2
  obtain ⟨fn, hfn, hmap⟩ := h2
  rcases hfetch : fetchDoc fn with _ | doc
  · rw [hfetch] at hmap
    cases hmap
  · rw [hfetch] at hmap
    refine ⟨fn, doc, hfn, hfetch, ?_⟩
    cases hmap
    rfl

/-- Claim C8: a snapshot whose filename does not match the
`{year}-W{week}.json` pattern (null parsed year and week) contributes no
historical record, for every country code and category filter; and every
record returned by `getHistoricalData` over loader output comes from a
snapshot with non-falsy year and week (the malformed ones are skipped, not
crashed on). -/
theorem claim_C8 (fetchDoc : String → Option Doc) (files : List String)
    (maxWeeks : ℕ) (countryCode : String) (category : Option String) :
    (∀ s ∈ loadWeeklyData fetchDoc files maxWeeks,
      parseWeekFilename s.filename = none →
      recordsOf s countryCode category = []) ∧
    (∀ r ∈ getHistoricalData (loadWeeklyData fetchDoc files maxWeeks)
        countryCode category,
      ∃ s ∈ loadWeeklyData fetchDoc files maxWeeks,
        s.year ≠ none ∧ s.week ≠ none ∧ s.year ≠ some 0 ∧ s.week ≠ some 0 ∧
        r ∈ recordsOf s countryCode category) := by
  constructor
  · intro s hs hparse
    obtain ⟨fn, doc, _, _, rfl⟩ := mem_loadWeeklyData hs
    have hfn : parseWeekFilename fn = none := hparse
    unfold recordsOf
    rw [show (mkSnapshot fn doc).year = (parseWeekFilename fn).map (fun p => p.1)
        from rfl]
    rw [hfn]
    rfl
  · intro r hr
    rw [getHistoricalData, List.mem_flatMap] at hr
    obtain ⟨s, hs, hrs⟩ := hr
    obtain ⟨y, w, hy, hw, hy0, hw0⟩ := recordsOf_valid hrs
    refine ⟨s, hs, by rw [hy]; simp, by rw [hw]; simp, ?_, ?_, hrs⟩
    · rw [hy]
      simp [hy0]
    · rw [hw]
      simp [hw0]

/-- Fetch oracle for the C8 witness: only the malformed filename exists. -/
def c8Fetch : String → Option Doc :=
  fun fn => if fn = "bad.json" then some exDoc else none

/-- Witness for claim C8: the malformed filename `bad.json` parses to
null week info, its snapshot is loaded, and it contributes no record. -/
theorem claim_C8_witness :
    parseWeekFilename "bad.json" = none ∧
    recordsOf (mkSnapshot "bad.json" exDoc) "IN" none = [] := by
  have heval : loadWeeklyData c8Fetch ["bad.json"] 1 =
      [mkSnapshot "bad.json" exDoc] := rfl
  have hmem : mkSnapshot "bad.json" exDoc ∈ loadWeeklyData c8Fetch ["bad.json"] 1 := by
    rw [heval]
    exact List.mem_singleton.mpr rfl
  exact ⟨rfl, (claim_C8 c8Fetch ["bad.json"] 1 "IN" none).1 _ hmem rfl⟩

/-! Part: Current-data service (`getLastUpdated`, `getCountryData`)

Embeds `DataService.getLastUpdated` (src/unnamed/part_002 lines 216-225),
the standalone page's last-updated scan loop (src/unnamed/part_004 lines
58-66) and `DataService.getCountryData` (part_002 lines 154-168).
`Object.values` iterates the category blocks in insertion order. -/

/-- The `lastupdated` value of a category block when present and truthy. -/
def truthyUpdated (block : CountryBlock) : Option JSON :=
  match lookupKey block "lastupdated" with
  | some v => if jsTruthy v then some v else none
  | none => none

/-- Embedding of `DataService.getLastUpdated()`: walk the category blocks
and `return` the first truthy `lastupdated` encountered. -/
def getLastUpdated (currentData : Doc) : Option JSON :=
  match currentData with
  | [] => none
  | (_, block) :: rest =>
    match lookupKey block "lastupdated" with
    | some v => if jsTruthy v then some v else getLastUpdated rest
    | none => getLastUpdated rest

/-- Embedding of the standalone page's scan loop: fold over all category
blocks, overwriting the accumulator with each truthy `lastupdated`. -/
def scanLastUpdated (timesData : Doc) : Option JSON :=
  timesData.foldl
    (fun acc cb =>
      match truthyUpdated cb.2 with
      | some v => some v
      | none => acc) none

/-- First-some choice on options (the shape of both characterizations). -/
def orO (a b : Option JSON) : Option JSON :=
  match a with
  | some v => some v
  | none => b

theorem orO_getLast_cons (v : JSON) (rest : List JSON) (acc : Option JSON) :
    orO ((v :: rest).getLast?) acc = orO rest.getLast? (some v) := by
  cases rest with
  | nil => rfl
  | cons b t =>
    rw [List.getLast?_cons_cons]
    rcases h : (b :: t).getLast? with _ | x
    · simp at h
    · rfl

theorem scanLastUpdated_aux (l : Doc) : ∀ acc : Option JSON,
    l.foldl (fun acc cb =>
        match truthyUpdated cb.2 with
        | some v => some v
        | none => acc) acc
      = orO ((l.filterMap (fun cb => truthyUpdated cb.2)).getLast?) acc := by
  induction l with
  | nil => intro acc; rfl
  | cons cb t ih =>
    intro acc
    rw [List.foldl_cons, List.filterMap_cons]
    rcases h : truthyUpdated cb.2 with _ | v
    · exact ih acc
    · exact (ih (some v)).trans
        (orO_getLast_cons v (t.filterMap (fun cb => truthyUpdated cb.2)) acc).symm

theorem getLastUpdated_head (l : Doc) :
    getLastUpdated l = (l.filterMap (fun cb => truthyUpdated cb.2)).head? := by
  induction l with
  | nil => rfl
  | cons cb t ih =>
    obtain ⟨nm, block⟩ := cb
    rw [List.filterMap_cons]
    show (match lookupKey block "lastupdated" with
      | some v => if jsTruthy v then some v else getLastUpdated t
      | none => getLastUpdated t) = _
    rcases hl : lookupKey block "lastupdated" with _ | v
    · rw [show truthyUpdated (nm, block).2 = none by simp [truthyUpdated, hl]]
      exact ih
    · by_cases ht : jsTruthy v = true
      · rw [show truthyUpdated (nm, block).2 = some v by
          simp [truthyUpdated, hl, ht]]
        simp [ht]
      · rw [show truthyUpdated (nm, block).2 = none by
          simp only [truthyUpdated, hl]
          rw [if_neg ht]]
        simpa [ht] using ih

/-- Document with a truthy `lastupdated` in both category blocks. -/
def c3Doc : Doc :=
  [("a", [("lastupdated", JSON.str "X")]), ("b", [("lastupdated", JSON.str "Y")])]

/-- Counterexample to claim C3 as stated: with `lastupdated` present and
truthy in two category blocks, `DataService.getLastUpdated` returns the
value of the FIRST block (`"X"`), not the last one (`"Y"`); the last-wins
behavior belongs to the standalone page's scan loop. -/
theorem claim_C3_counterexample :
    getLastUpdated c3Doc = some (JSON.str "X") ∧
    truthyUpdated ([("lastupdated", JSON.str "Y")] : CountryBlock) =
      some (JSON.str "Y") ∧
    scanLastUpdated c3Doc = some (JSON.str "Y") ∧
    getLastUpdated c3Doc ≠ scanLastUpdated c3Doc := by
  refine ⟨rfl, rfl, rfl, ?_⟩
  intro h
  rw [show getLastUpdated c3Doc = some (JSON.str "X") from rfl,
    show scanLastUpdated c3Doc = some (JSON.str "Y") from rfl] at h
  injection h with h2
  injection h2 with h3
  exact absurd h3 (by decide)

/-- Claim C3 as amended: among the category blocks carrying a truthy
`lastupdated`, `DataService.getLastUpdated` reports the FIRST one in
iteration order (first one wins), while the standalone page's scan loop
reports the last one (last one wins). -/
theorem claim_C3_amended (currentData : Doc) :
    getLastUpdated currentData =
      (currentData.filterMap (fun cb => truthyUpdated cb.2)).head? ∧
    scanLastUpdated currentData =
      (currentData.filterMap (fun cb => truthyUpdated cb.2)).getLast? := by
  constructor
  · exact getLastUpdated_head currentData
  · rw [scanLastUpdated, scanLastUpdated_aux]
    rcases h : (currentData.filterMap (fun cb => truthyUpdated cb.2)).getLast? with _ | v
    · rw [h]
      rfl
    · rw [h]
      rfl

/-- The truthy per-category entries collected by `getCountryData`
(`countryData[category] = countries[countryCode]` under
`if (countries[countryCode])`). -/
def countryEntries (currentData : Doc) (countryCode : String) :
    List (String × JSON) :=
  currentData.filterMap (fun cb =>
    match lookupKey cb.2 countryCode with
    | some v => if jsTruthy v then some (cb.1, v) else none
    | none => none)

/-- Embedding of `getCountryData(countryCode)`: the collected entries, or
null when the `hasData` flag never became true. -/
def getCountryData (currentData : Doc) (countryCode : String) :
    Option (List (String × JSON)) :=
  if (countryEntries currentData countryCode).isEmpty then none
  else some (countryEntries currentData countryCode)

/-- Every record emitted by the aggregator carries a truthy raw value. -/
theorem mem_recordsOf_truthy {wd : Snapshot} {countryCode : String}
    {category : Option String} {r : HistRecord}
    (h : r ∈ recordsOf wd countryCode category) : jsTruthy r.data = true := by
  unfold recordsOf at h
  split at h
  · split at h
    · simp at h
    · split at h
      · rename_i cat
        split at h
        · split at h
          · rename_i v hv htr
            split at h
            · rename_i ht
              rw [List.mem_singleton] at h
              rw [h]
              exact ht
            · simp at h
          · simp at h
        · simp at h
      · rw [List.mem_filterMap] at h
        obtain ⟨p, hp, hf⟩ := h
        split at hf
        · rename_i v hv
          split at hf
          · rename_i ht
            cases hf
            exact ht
          · cases hf
        · cases hf
  · simp at h

/-- Claim C10: a falsy time-value (0, empty string, false, null) for the
country is treated as absent — every entry `getCountryData` collects is
truthy, and when every category's value for the country is falsy the
function returns null rather than an empty object; likewise every
historical record carries a truthy raw value, so falsy values produce no
Historical Record. -/
theorem claim_C10 (currentData : Doc) (countryCode : String)
    (weekly : List Snapshot) (category : Option String) :
    (∀ e ∈ countryEntries currentData countryCode, jsTruthy e.2 = true) ∧
    ((∀ cb ∈ currentData, ∀ v, lookupKey cb.2 countryCode = some v →
        jsTruthy v = false) →
      getCountryData currentData countryCode = none) ∧
    (∀ r ∈ getHistoricalData weekly countryCode category,
      jsTruthy r.data = true) := by
  refine ⟨?_, ?_, ?_⟩
  · intro e he
    rw [countryEntries, List.mem_filterMap] at he
    obtain ⟨cb, hcb, hf⟩ := he
    split at hf
    · rename_i v hv
      split at hf
      · rename_i ht
        cases hf
        exact ht
      · cases hf
    · cases hf
  · intro hall
    have hempty : countryEntries currentData countryCode = [] := by
      rw [countryEntries, List.filterMap_eq_nil_iff]
      intro cb hcb
      rcases hv : lookupKey cb.2 countryCode with _ | v
      · rfl
      · have hfalse := hall cb hcb v hv
        show (if jsTruthy v = true then some (cb.1, v) else none) = none
        rw [if_neg (by rw [hfalse]; exact Bool.noConfusion)]
    have hempty2 : (countryEntries currentData countryCode).isEmpty = true := by
      rw [hempty]
      rfl
    rw [getCountryData, if_pos hempty2]
  · intro r hr
    rw [getHistoricalData, List.mem_flatMap] at hr
    obtain ⟨s, hs, hrs⟩ := hr
    exact mem_recordsOf_truthy hrs

/-- Witness for claim C10: a document whose only value for `"PH"` is the
empty string yields null. -/
theorem claim_C10_witness :
    getCountryData [("study-permit", [("PH", JSON.str "")])] "PH" = none := by
  refine (claim_C10 [("study-permit", [("PH", JSON.str "")])] "PH" [] none).2.1 ?_
  intro cb hcb v hv
  have hcb2 : cb = ("study-permit", [("PH", JSON.str "")]) := by
    simpa using hcb
  rw [hcb2] at hv
  have hv2 : v = JSON.str "" := by
    have : lookupKey [("PH", JSON.str "")] "PH" = some (JSON.str "") := rfl
    rw [this] at hv
    exact (Option.some.inj hv).symm
  rw [hv2]
  rfl

/-! Part: Chart data preparation (`prepareChartData`)

Embeds `ChartService.prepareChartData` (src/unnamed/part_001 lines
92-120): group surviving points (non-null extraction) by category in input
order, then sort each bucket by `x` with the stable JS sort. -/

/-- The chart point pushed for a record whose extraction is non-null. -/
def survivingPoint (e : HistRecord) : Option ChartPoint :=
  match extractProcessingTime e.data with
  | some t => some ⟨e.date, t, e.week, e.data⟩
  | none => none

/-- The bucket `chartData[category]` before sorting: surviving points of
the records of that category, in input order. -/
def categoryBucket (historicalData : List HistRecord) (cat : String) :
    List ChartPoint :=
  historicalData.filterMap (fun e =>
    if e.category = cat then survivingPoint e else none)

/-- Deduplication keeping first occurrences (JS object key insertion
order). -/
def firstDedupAux (seen : List String) : List String → List String
  | [] => []
  | a :: l => if a ∈ seen then firstDedupAux seen l
      else a :: firstDedupAux (a :: seen) l

/-- Category keys of `chartData`, in order of first surviving occurrence. -/
def chartCategories (historicalData : List HistRecord) : List String :=
  firstDedupAux []
    ((historicalData.filter (fun e => (survivingPoint e).isSome)).map
      (fun e => e.category))

/-- Embedding of `prepareChartData(historicalData)`. -/
def prepareChartData (historicalData : List HistRecord) :
    List (String × List ChartPoint) :=
  (chartCategories historicalData).map
    (fun c => (c, stableSortBy (fun p => p.x) (categoryBucket historicalData c)))

/-- The point built from a surviving record keeps the record's date as its
`x`. -/
theorem survivingPoint_x {e : HistRecord} {p : ChartPoint}
    (h : survivingPoint e = some p) : p.x = e.date := by
  unfold survivingPoint at h
  split at h
  · cases h
    rfl
  · cases h

/-- In a pairwise-ordered list, two distinct members not related backwards
occur in relation order: `[x, y]` is a sublist. -/
theorem pair_sublist_of_pairwise {α : Type} {R : α → α → Prop} :
    ∀ {l : List α} {x y : α}, l.Pairwise R → x ∈ l → y ∈ l → x ≠ y →
      ¬ R y x → [x, y].Sublist l := by
  intro l
  induction l with
  | nil => intro x y _ hx _ _ _; cases hx
  | cons a t ih =>
    intro x y hp hx hy hne hnr
    rcases List.mem_cons.mp hx with hxa | hxt
    · rcases List.mem_cons.mp hy with hya | hyt
      · exact absurd (hxa.trans hya.symm) hne
      · subst hxa
        exact List.Sublist.cons₂ _ (List.singleton_sublist.mpr hyt)
    · rcases List.mem_cons.mp hy with hya | hyt
      · subst hya
        exact absurd ((List.pairwise_cons.mp hp).1 x hxt) hnr
      · exact List.Sublist.cons _ (ih (List.pairwise_cons.mp hp).2 hxt hyt hne hnr)

/-- A strictly key-increasing list is left unchanged by the stable sort. -/
theorem stableSortBy_eq_of_strict {α : Type} (key : α → ℤ) {l : List α}
    (h : List.Pairwise (fun a b => key a < key b) l) : stableSortBy key l = l := by
  have hs : List.Pairwise (lexLe key) l.enum := by
    rw [List.pairwise_iff_getElem] at h ⊢
    intro i j hi hj hij
    have hi2 : i < l.length := by simpa using hi
    have hj2 : j < l.length := by simpa using hj
    have hlt := h i j hi2 hj2 hij
    rw [List.getElem_enum, List.getElem_enum]
    exact Or.inl hlt
  unfold stableSortBy
  rw [List.Sorted.insertionSort_eq hs, List.enum_map_snd]

/-- Claim C9: when the input records have strictly increasing dates, every
per-category series of `prepareChartData` is exactly its bucket of
surviving points in input order (the sort is the identity); and in
general the per-category sort is stable — two bucket points with equal
`x` occur in the output in their input order. -/
theorem claim_C9 (l : List HistRecord) :
    (List.Pairwise (fun a b => a.date < b.date) l →
      ∀ c pts, (c, pts) ∈ prepareChartData l → pts = categoryBucket l c) ∧
    (∀ c pts, (c, pts) ∈ prepareChartData l →
      ∀ i j (hi : i < (categoryBucket l c).length)
        (hj : j < (categoryBucket l c).length), i < j →
        ((categoryBucket l c).get ⟨i, hi⟩).x =
          ((categoryBucket l c).get ⟨j, hj⟩).x →
        [(categoryBucket l c).get ⟨i, hi⟩,
          (categoryBucket l c).get ⟨j, hj⟩].Sublist pts) := by
  constructor
  · intro hstrict c pts hmem
    rw [prepareChartData, List.mem_map] at hmem
    obtain ⟨c2, _, heq⟩ := hmem
    have hc : c2 = c := congrArg Prod.fst heq
    subst hc
    have hpts : pts = stableSortBy (fun p => p.x) (categoryBucket l c2) :=
      (congrArg Prod.snd heq).symm
    have hbucket : List.Pairwise (fun a b : ChartPoint => a.x < b.x)
        (categoryBucket l c2) := by
      rw [categoryBucket]
      refine List.Pairwise.filterMap _ ?_ hstrict
      intro a b hab p hp q hq
      have hp2 : survivingPoint a = some p := by
        by_cases h : a.category = c2
        · rw [if_pos h] at hp
          exact Option.mem_def.mp hp
        · rw [if_neg h] at hp
          cases hp
      have hq2 : survivingPoint b = some q := by
        by_cases h : b.category = c2
        · rw [if_pos h] at hq
          exact Option.mem_def.mp hq
        · rw [if_neg h] at hq
          cases hq
      rw [survivingPoint_x hp2, survivingPoint_x hq2]
      exact hab
    rw [hpts, stableSortBy_eq_of_strict _ hbucket]
  · intro c pts hmem i j hi hj hij hxeq
    rw [prepareChartData, List.mem_map] at hmem
    obtain ⟨c2, _, heq⟩ := hmem
    have hc : c2 = c := congrArg Prod.fst heq
    subst hc
    have hpts : pts = stableSortBy (fun p => p.x) (categoryBucket l c2) :=
      (congrArg Prod.snd heq).symm
    have hi2 : i < (categoryBucket l c2).enum.length := by simpa using hi
    have hj2 : j < (categoryBucket l c2).enum.length := by simpa using hj
    have hpm : (i, (categoryBucket l c2).get ⟨i, hi⟩) ∈
        (categoryBucket l c2).enum := by
      have h4 := List.get_mem (categoryBucket l c2).enum i hi2
      rw [show (categoryBucket l c2).enum.get ⟨i, hi2⟩ =
          (categoryBucket l c2).enum[i] from rfl, List.getElem_enum] at h4
      exact h4
    have hqm : (j, (categoryBucket l c2).get ⟨j, hj⟩) ∈
        (categoryBucket l c2).enum := by
      have h4 := List.get_mem (categoryBucket l c2).enum j hj2
      rw [show (categoryBucket l c2).enum.get ⟨j, hj2⟩ =
          (categoryBucket l c2).enum[j] from rfl, List.getElem_enum] at h4
      exact h4
    have hsorted := List.sorted_insertionSort (lexLe (fun p : ChartPoint => p.x))
      (categoryBucket l c2).enum
    have hperm := List.perm_insertionSort (lexLe (fun p : ChartPoint => p.x))
      (categoryBucket l c2).enum
    have hne : (i, (categoryBucket l c2).get ⟨i, hi⟩) ≠
        (j, (categoryBucket l c2).get ⟨j, hj⟩) := by
      intro hcontra
      exact absurd (congrArg Prod.fst hcontra) (by omega)
    have hnr : ¬ lexLe (fun p : ChartPoint => p.x)
        (j, (categoryBucket l c2).get ⟨j, hj⟩)
        (i, (categoryBucket l c2).get ⟨i, hi⟩) := by
      intro hcontra
      rcases hcontra with hlt | ⟨heq2, hle⟩
      · have hlt2 : ((categoryBucket l c2).get ⟨j, hj⟩).x <
            ((categoryBucket l c2).get ⟨i, hi⟩).x := hlt
        rw [hxeq] at hlt2
        exact lt_irrefl _ hlt2
      · have hle2 : j ≤ i := hle
        omega
    have hsub := pair_sublist_of_pairwise hsorted
      (hperm.mem_iff.mpr hpm) (hperm.mem_iff.mpr hqm) hne hnr
    have hsub2 := hsub.map Prod.snd
    rw [hpts]
    exact hsub2

/-- Two records of one category with strictly increasing dates. -/
def c9Recs : List HistRecord :=
  [⟨0, "2025-W01", "study-permit", "IN", JSON.str "10 days"⟩,
   ⟨7, "2025-W02", "study-permit", "IN", JSON.str "12 days"⟩]

/-- Witness for claim C9: on the concrete two-record input the sort
leaves the bucket unchanged. -/
theorem claim_C9_witness :
    stableSortBy (fun p => p.x) (categoryBucket c9Recs "study-permit") =
      categoryBucket c9Recs "study-permit" := by
  have hcat : chartCategories c9Recs = ["study-permit"] := by
    simp [chartCategories, c9Recs, survivingPoint, firstDedupAux,
      extractProcessingTime, scanFirstNumber, takeDigits, List.filter]
  have hmem : ("study-permit",
      stableSortBy (fun p => p.x) (categoryBucket c9Recs "study-permit")) ∈
      prepareChartData c9Recs := by
    rw [prepareChartData, hcat]
    exact List.mem_singleton.mpr rfl
  exact (claim_C9 c9Recs).1 (by decide) "study-permit" _ hmem
